import Mathlib

/-!
Shallow embedding of `perceval/backends/mozilla/crates.py` (Crates.io backend
for Perceval) and proofs about its specification.

Modelling conventions:
* JSON values are modelled by the inductive type `Val`; Python dicts by
  association lists `List (String × Val)`.  `setKey` models `d[k] = v`
  (replace in place, else append) and `getKey` models lookup.
* Timestamps are modelled as `Int` (UTC seconds).  The external collaborators
  `str_to_datetime` / `.timestamp()` from `grimoirelab_toolkit` are
  abstracted: listing entries carry an already-parsed `updated_at : Int`, and
  the classifier functions take an abstract `parse : String → Int` argument.
  `datetime_to_utc` is the identity on this already-UTC representation.
* HTTP calls are modelled by a `CratesClientModel` of response functions
  returning `Except String _`; a raised exception is an `Except.error`.
  Raw textual payloads are identified with their parsed envelopes (the code
  always `json.loads` them before use; decode errors are conflated with
  transport errors in the response functions).
* The `while fetch_data` pagination loop of `CratesClient.__fetch_items` is
  modelled with an explicit fuel argument; `FetchResult.outOfFuel` marks fuel
  exhaustion and is distinct from normal termination `FetchResult.done`.
-/

/-- Category constant `CATEGORY_CRATES = 'crates'` from the source. -/
def CATEGORY_CRATES : String := "crates"

/-- Category constant `CATEGORY_SUMMARY = 'summary'` from the source. -/
def CATEGORY_SUMMARY : String := "summary"

/-- Model of `perceval.utils.DEFAULT_DATETIME` (1970-01-01 UTC) as UTC seconds. -/
def DEFAULT_DATETIME : Int := 0

/-- Model of `grimoirelab_toolkit.datetime.datetime_to_utc`: on the
already-UTC integer timestamp representation it is the identity. -/
def datetime_to_utc (ts : Int) : Int := ts

/-- JSON-like values stored in decoded payloads. -/
inductive Val where
  | str (s : String)
  | num (n : Int)
  | obj (fields : List (String × Val))
  | arr (elems : List Val)

/-- Model of the Python dict assignment `d[k] = v` on an association list:
replace the binding in place if the key is present, otherwise append. -/
def setKey (d : List (String × Val)) (k : String) (v : Val) : List (String × Val) :=
  match d with
  | [] => [(k, v)]
  | (k2, v2) :: rest => if k2 = k then (k, v) :: rest else (k2, v2) :: setKey rest k v

/-- Model of the Python dict lookup `d[k]` (first binding wins). -/
def getKey (d : List (String × Val)) (k : String) : Option Val :=
  match d with
  | [] => none
  | (k2, v2) :: rest => if k2 = k then some v2 else getKey rest k

/-- Model of the Python membership test `k in d`. -/
def hasKey (d : List (String × Val)) (k : String) : Bool :=
  (getKey d k).isSome

/-- One crate-summary entry of a listing page: the two fields the code reads
(`id` and `updated_at`, the latter already parsed to UTC seconds). -/
structure CrateEntry where
  id : String
  updated_at : Int
  deriving Repr, DecidableEq

/-- A decoded listing-page envelope: the `crates` array and `meta.total`. -/
structure Page where
  crates : List CrateEntry
  total : Nat
  deriving Repr, DecidableEq

namespace CratesClient

/-- Outcome of running the paginated generator `__fetch_items` to completion:
the pages it yielded, and whether it stopped normally, raised, or ran out of
modelling fuel. -/
inductive FetchResult where
  | done (pages : List Page)
  | failed (pages : List Page) (e : String)
  | outOfFuel (pages : List Page)
  deriving Repr, DecidableEq

/-- Model of `CratesClient.__fetch_items`: paginate starting at `page`,
keeping `parsed` (the running `parsed_crates` count) and `total` (the
`total_crates` value, `0` until first set).  Each iteration fetches the page,
adds the length of its `crates` array to `parsed`, captures `meta.total`
while `total` is still falsy, yields the page, and stops once
`parsed >= total`.  A fetch error aborts and is re-raised. -/
def fetchItems (getPage : Nat → Except String Page) :
    Nat → Nat → Nat → Nat → FetchResult
  | _, _, _, 0 => FetchResult.outOfFuel []
  | page, parsed, total, fuel + 1 =>
    match getPage page with
    | Except.error e => FetchResult.failed [] e
    | Except.ok content =>
      let parsed2 := parsed + content.crates.length
      let total2 := if total = 0 then content.total else total
      if total2 ≤ parsed2 then
        FetchResult.done [content]
      else
        match fetchItems getPage (page + 1) parsed2 total2 fuel with
        | FetchResult.done ps => FetchResult.done (content :: ps)
        | FetchResult.failed ps e => FetchResult.failed (content :: ps) e
        | FetchResult.outOfFuel ps => FetchResult.outOfFuel (content :: ps)

/-- Model of `CratesClient.crates(from_page)`: delegates to `__fetch_items`
(the URL path carries no information in the model). -/
def crates (getPage : Nat → Except String Page) (from_page : Nat) (fuel : Nat) :
    FetchResult :=
  fetchItems getPage from_page 0 0 fuel

end CratesClient

/-- Cumulative length of the `crates` arrays of pages `1..k`. -/
def cumLen (pages : Nat → Page) : Nat → Nat
  | 0 => 0
  | k + 1 => cumLen pages k + (pages (k + 1)).crates.length

/-- The list of `n` consecutive pages starting at page `p`. -/
def segPages (pages : Nat → Page) (p : Nat) : Nat → List Page
  | 0 => []
  | n + 1 => pages p :: segPages pages (p + 1) n

/-- HTTP requests issued by the crate aggregator, per crate: the detail
request `GET crates/(id)` and the sub-resource requests
`GET crates/(id)/(attribute)`. -/
inductive Request where
  | crateDetail (id : String)
  | crateAttr (id : String) (attribute2 : String)
  deriving Repr, DecidableEq

/-- Whether a request is one of the four sub-resource (attribute) fetches. -/
def Request.isAttr : Request → Bool
  | Request.crateAttr _ _ => true
  | Request.crateDetail _ => false

/-- Response functions of the Crates.io API client, in the order the source
defines the endpoints: `summary()`, the paginated listing (`pageAt n` is the
decoded envelope of listing page `n`), `crate(id)`, and
`crate_attribute(id, attribute)`. -/
structure CratesClientModel where
  summary : Except String (List (String × Val))
  pageAt : Nat → Except String Page
  crate : String → Except String (List (String × Val))
  crateAttribute : String → String → Except String Val

/-- The five requests issued for one crate that passes the watermark filter,
in source order. -/
def crateRequests (crate_id : String) : List Request :=
  [Request.crateDetail crate_id,
   Request.crateAttr crate_id "owner_team",
   Request.crateAttr crate_id "owner_user",
   Request.crateAttr crate_id "downloads",
   Request.crateAttr crate_id "versions"]

/-- The composite record built for one crate: the detail payload with the
four sub-resource payloads assigned under their fixed keys, in source order. -/
def compositeRecord (crate0 : List (String × Val)) (owner_team owner_user version_downloads versions : Val) :
    List (String × Val) :=
  setKey (setKey (setKey (setKey crate0 "owner_team_data" owner_team)
    "owner_user_data" owner_user) "version_downloads_data" version_downloads)
    "versions_data" versions

namespace Crates

/-- Model of `Crates.__fetch_crate_data`: fetch `crates/(id)` and extract the
`crate` sub-object of the decoded response (a missing key raises). -/
def fetchCrateData (client : CratesClientModel) (crate_id : String) :
    Except String Val :=
  match client.crate crate_id with
  | Except.error e => Except.error e
  | Except.ok resp =>
    match getKey resp "crate" with
    | some v => Except.ok v
    | none => Except.error "KeyError: crate"

/-- Model of the per-crate body of `Crates.__fetch_crates`: the detail fetch
followed by the four sub-resource fetches, each assigned into the crate dict
as it returns.  The first component is the trace of requests issued before
returning; the second is the composite record or the propagated error.
A non-dict detail payload raises on the first assignment, which happens
after the `owner_team` fetch, as in Python. -/
def processCrate (client : CratesClientModel) (crate_id : String) :
    List Request × Except String (List (String × Val)) :=
  match fetchCrateData client crate_id with
  | Except.error e => ([Request.crateDetail crate_id], Except.error e)
  | Except.ok crateVal =>
    match client.crateAttribute crate_id "owner_team" with
    | Except.error e =>
      ([Request.crateDetail crate_id, Request.crateAttr crate_id "owner_team"], Except.error e)
    | Except.ok owner_team =>
      match crateVal with
      | Val.obj crate0 =>
        match client.crateAttribute crate_id "owner_user" with
        | Except.error e =>
          ([Request.crateDetail crate_id, Request.crateAttr crate_id "owner_team",
            Request.crateAttr crate_id "owner_user"], Except.error e)
        | Except.ok owner_user =>
          match client.crateAttribute crate_id "downloads" with
          | Except.error e =>
            ([Request.crateDetail crate_id, Request.crateAttr crate_id "owner_team",
              Request.crateAttr crate_id "owner_user", Request.crateAttr crate_id "downloads"],
             Except.error e)
          | Except.ok version_downloads =>
            match client.crateAttribute crate_id "versions" with
            | Except.error e =>
              ([Request.crateDetail crate_id, Request.crateAttr crate_id "owner_team",
                Request.crateAttr crate_id "owner_user", Request.crateAttr crate_id "downloads",
                Request.crateAttr crate_id "versions"], Except.error e)
            | Except.ok versions =>
              (crateRequests crate_id,
               Except.ok (compositeRecord crate0 owner_team owner_user version_downloads versions))
      | _ =>
        ([Request.crateDetail crate_id, Request.crateAttr crate_id "owner_team"],
         Except.error "TypeError: crate data does not support item assignment")

/-- Model of the inner loop of `Crates.__fetch_crates` over the entries of
one decoded page: entries whose `updated_at` is before `from_date` are
skipped; otherwise the crate is processed and the composite record yielded.
Returns the request trace, the yielded records in order, and the propagated
error, if any (processing stops at the first error). -/
def processEntries (client : CratesClientModel) (from_date : Int) :
    List CrateEntry → List Request × List (List (String × Val)) × Option String
  | [] => ([], [], none)
  | e :: rest =>
    if e.updated_at < from_date then
      processEntries client from_date rest
    else
      match processCrate client e.id with
      | (tr, Except.error err) => (tr, [], some err)
      | (tr, Except.ok r) =>
        let out := processEntries client from_date rest
        (tr ++ out.1, r :: out.2.1, out.2.2)

/-- Model of the outer loop of `Crates.__fetch_crates` over the decoded pages
produced by the client: pages are consumed in order and processing stops at
the first propagated error. -/
def fetchCratesPages (client : CratesClientModel) (from_date : Int) :
    List Page → List Request × List (List (String × Val)) × Option String
  | [] => ([], [], none)
  | p :: ps =>
    match processEntries client from_date p.crates with
    | (tr, rs, some err) => (tr, rs, some err)
    | (tr, rs, none) =>
      let out := fetchCratesPages client from_date ps
      (tr ++ out.1, rs ++ out.2.1, out.2.2)

/-- Final status of a crates fetch: normal exhaustion of the generator, a
raised error, or modelling-fuel exhaustion of the pagination loop. -/
inductive CratesOutcome where
  | ok
  | error (e : String)
  | outOfFuel
  deriving Repr, DecidableEq

/-- Model of `Crates.__fetch_crates`: normalize `from_date` to UTC, obtain
the page sequence from `client.crates()` and aggregate each surviving crate.
An error raised by a sub-fetch while processing a page surfaces before the
page fetcher's own pending error, matching the generator interleaving. -/
def fetchCrates (client : CratesClientModel) (from_date : Int) (fuel : Nat) :
    List Request × List (List (String × Val)) × CratesOutcome :=
  let fd := datetime_to_utc from_date
  match CratesClient.fetchItems client.pageAt 1 0 0 fuel with
  | CratesClient.FetchResult.done pages =>
    match fetchCratesPages client fd pages with
    | (tr, rs, some err) => (tr, rs, CratesOutcome.error err)
    | (tr, rs, none) => (tr, rs, CratesOutcome.ok)
  | CratesClient.FetchResult.failed pages e =>
    match fetchCratesPages client fd pages with
    | (tr, rs, some err) => (tr, rs, CratesOutcome.error err)
    | (tr, rs, none) => (tr, rs, CratesOutcome.error e)
  | CratesClient.FetchResult.outOfFuel pages =>
    match fetchCratesPages client fd pages with
    | (tr, rs, some err) => (tr, rs, CratesOutcome.error err)
    | (tr, rs, none) => (tr, rs, CratesOutcome.outOfFuel)

/-- Model of `Crates.__fetch_summary`: decode the summary payload, set
`fetched_on` to the stringified current UTC time (`now`), and yield exactly
that one record. -/
def fetchSummary (summaryResp : Except String (List (String × Val))) (now : String) :
    Except String (List (List (String × Val))) :=
  match summaryResp with
  | Except.error e => Except.error e
  | Except.ok summary => Except.ok [setKey summary "fetched_on" (Val.str now)]

/-- Model of `Crates.metadata_category`: `summary` when the item has a
`num_downloads` key, `crates` otherwise. -/
def metadata_category (item : List (String × Val)) : String :=
  if hasKey item "num_downloads" then CATEGORY_SUMMARY else CATEGORY_CRATES

/-- Model of Python `str()` applied to an item field value.  Strings print
as themselves and integers in decimal; the container cases are abstract
(never relevant to the claims). -/
def valStr : Val → String
  | Val.str s => s
  | Val.num n => toString n
  | Val.obj _ => "<mapping>"
  | Val.arr _ => "<sequence>"

/-- Model of `Crates.metadata_id`: for crate items the stringified `id`
field; for summary items the stringified numeric timestamp parsed from
`fetched_on`.  `none` models a raised lookup or parse error. -/
def metadata_id (parse : String → Int) (item : List (String × Val)) : Option String :=
  if metadata_category item = CATEGORY_CRATES then
    (getKey item "id").map valStr
  else
    match getKey item "fetched_on" with
    | some (Val.str s) => some (toString (parse s))
    | _ => none

/-- Model of `Crates.metadata_updated_on`: the numeric UTC timestamp parsed
from `updated_at` for crate items and from `fetched_on` for summary items. -/
def metadata_updated_on (parse : String → Int) (item : List (String × Val)) : Option Int :=
  match (if metadata_category item = CATEGORY_CRATES then
           getKey item "updated_at"
         else
           getKey item "fetched_on") with
  | some (Val.str s) => some (parse s)
  | _ => none

/-- The two kinds of item sequence `Crates.fetch` can return. -/
inductive FetchOutput where
  | cratesItems (out : List Request × List (List (String × Val)) × CratesOutcome)
  | summaryItems (out : Except String (List (List (String × Val))))

/-- Model of `Crates.fetch_items`: dispatch on the category. -/
def fetch_items (client : CratesClientModel) (now : String) (fuel : Nat)
    (category : String) (from_date : Int) : FetchOutput :=
  if category = CATEGORY_CRATES then
    FetchOutput.cratesItems (fetchCrates client from_date fuel)
  else
    FetchOutput.summaryItems (fetchSummary client.summary now)

/-- Model of `Crates.fetch`: a falsy `from_date` (`none`) is replaced by
`DEFAULT_DATETIME`, the result is normalized to UTC and passed down. -/
def fetch (client : CratesClientModel) (now : String) (fuel : Nat)
    (category : String) (from_date : Option Int) : FetchOutput :=
  match from_date with
  | none => fetch_items client now fuel category (datetime_to_utc DEFAULT_DATETIME)
  | some d => fetch_items client now fuel category (datetime_to_utc d)

end Crates

/-- The record, if any, that processing a single listing entry produces. -/
def entryRecord (client : CratesClientModel) (e : CrateEntry) :
    Option (List (String × Val)) :=
  match Crates.processCrate client e.id with
  | (_, Except.ok r) => some r
  | (_, Except.error _) => none

/-- The `updated_at` field of an emitted composite record, read back as a
numeric timestamp. -/
def recordUpdatedAt (r : List (String × Val)) : Option Int :=
  match getKey r "updated_at" with
  | some (Val.num n) => some n
  | _ => none

/-! Concrete instances used by witnesses and counterexamples. -/

/-- A client whose every request succeeds: the detail payload of crate `cid`
is an object with `id = cid` and `updated_at = 0`, every sub-resource
payload is the number `1`. -/
def clientOK : CratesClientModel :=
  ⟨Except.ok [("total_downloads", Val.num 7)],
   fun _ => Except.error "network disabled",
   fun cid => Except.ok [("crate", Val.obj [("id", Val.str cid), ("updated_at", Val.num 0)])],
   fun _ _ => Except.ok (Val.num 1)⟩

/-- Like `clientOK` except that the `versions` sub-fetch raises. -/
def clientErr : CratesClientModel :=
  ⟨Except.ok [("total_downloads", Val.num 7)],
   fun _ => Except.error "network disabled",
   fun cid => Except.ok [("crate", Val.obj [("id", Val.str cid), ("updated_at", Val.num 0)])],
   fun _ a => if a = "versions" then Except.error "HTTPError 500" else Except.ok (Val.num 1)⟩

/-- Two listing pages holding one crate each; the first page reports
`meta.total = 2` and the second page's differing total is ignored. -/
def pagesW : Nat → Page := fun n =>
  match n with
  | 1 => ⟨[⟨"a", 0⟩], 2⟩
  | 2 => ⟨[⟨"b", 0⟩], 9⟩
  | _ => ⟨[], 0⟩

/-- An empty registry: every page is empty with `meta.total = 0`. -/
def pagesZ : Nat → Page := fun _ => ⟨[], 0⟩

/-- A registry whose first page is empty but reports `meta.total = 1`. -/
def pagesEmptyFirst : Nat → Page := fun n =>
  match n with
  | 1 => ⟨[], 1⟩
  | _ => ⟨[⟨"a", 0⟩], 1⟩

/-- One listing page whose single entry passes a watermark of `5`. -/
def pageC5 : Page := ⟨[⟨"x", 10⟩], 1⟩

/-- The composite record `clientOK` produces for crate `x`. -/
def recC5 : List (String × Val) :=
  [("id", Val.str "x"), ("updated_at", Val.num 0), ("owner_team_data", Val.num 1),
   ("owner_user_data", Val.num 1), ("version_downloads_data", Val.num 1),
   ("versions_data", Val.num 1)]

/-- The composite record `clientOK` produces for a crate with id `cid`. -/
def recOK (cid : String) : List (String × Val) :=
  [("id", Val.str cid), ("updated_at", Val.num 0), ("owner_team_data", Val.num 1),
   ("owner_user_data", Val.num 1), ("version_downloads_data", Val.num 1),
   ("versions_data", Val.num 1)]

/-- Two listing pages with three crates, one of which fails a watermark of 5. -/
def pages9 : List Page := [⟨[⟨"a", 10⟩, ⟨"b", 1⟩], 3⟩, ⟨[⟨"c", 7⟩], 3⟩]

/-- A concrete stand-in for the external timestamp parser in witnesses. -/
def parseW : String → Int := fun s => (s.length : Int)

/-- A concrete crate-category item. -/
def itemCrateW : List (String × Val) :=
  [("id", Val.num 42), ("updated_at", Val.str "2021-06-01T00:00:00+00:00")]

/-- A concrete summary-category item. -/
def itemSummaryW : List (String × Val) :=
  [("num_downloads", Val.num 5), ("fetched_on", Val.str "2020-01-01T00:00:00+00:00")]

/-! Theorems. -/

/-- Looking up the key just set returns the new value. -/
theorem getKey_setKey_self (d : List (String × Val)) (k : String) (v : Val) :
    getKey (setKey d k v) k = some v := by
  induction d with
  | nil => simp [setKey, getKey]
  | cons p rest ih =>
    obtain ⟨k2, v2⟩ := p
    by_cases h : k2 = k
    · simp [setKey, getKey, h]
    · simp [setKey, getKey, h, ih]

/-- Setting one key does not change the lookup of a different key. -/
theorem getKey_setKey_ne (d : List (String × Val)) (k k2 : String) (v : Val)
    (h : k ≠ k2) : getKey (setKey d k v) k2 = getKey d k2 := by
  induction d with
  | nil => simp [setKey, getKey, h]
  | cons p rest ih =>
    obtain ⟨k3, v3⟩ := p
    by_cases h3 : k3 = k
    · subst h3
      simp [setKey, getKey, h]
    · simp [setKey, getKey, h3, ih]

/-- A dict has a key exactly when some binding for it is present. -/
theorem hasKey_iff_mem (d : List (String × Val)) (k : String) :
    hasKey d k = true ↔ ∃ v, (k, v) ∈ d := by
  induction d with
  | nil => simp [hasKey, getKey]
  | cons p rest ih =>
    obtain ⟨k2, v2⟩ := p
    simp only [hasKey, getKey] at ih ⊢
    by_cases h : k2 = k
    · subst h
      rw [if_pos rfl]
      constructor
      · intro _
        exact ⟨v2, List.mem_cons_self _ _⟩
      · intro _
        rfl
    · rw [if_neg h, ih]
      constructor
      · rintro ⟨v, hv⟩
        exact ⟨v, List.mem_cons_of_mem _ hv⟩
      · rintro ⟨v, hv⟩
        rcases List.mem_cons.mp hv with h1 | h2
        · injection h1 with hk hv2
          exact absurd hk.symm h
        · exact ⟨v, h2⟩

/-- Auxiliary invariant for the pagination loop: from page `p` (with `d`
further pages up to page `K`, the page on which the cumulative count reaches
the first page's total `T`), with `parsed` equal to the cumulative count of
pages before `p` and `total` holding `0` on the first iteration and `T`
afterwards, the loop yields exactly pages `p..K` and stops. -/
theorem fetchItems_seg (pages : Nat → Page) (T K : Nat)
    (hT : (pages 1).total = T)
    (hreach : T ≤ cumLen pages K)
    (hmin : ∀ j, 1 ≤ j → j < K → cumLen pages j < T) :
    ∀ fuel d p, 1 ≤ p → p + d = K → d + 1 ≤ fuel →
      CratesClient.fetchItems (fun n => Except.ok (pages n)) p (cumLen pages (p - 1))
        (if p = 1 then 0 else T) fuel
        = CratesClient.FetchResult.done (segPages pages p (d + 1)) := by
  intro fuel
  induction fuel with
  | zero =>
    intro d p hp hdp hf
    omega
  | succ f ih =>
    intro d p hp hdp hf
    obtain ⟨q, rfl⟩ : ∃ q, p = q + 1 := ⟨p - 1, by omega⟩
    have hq1 : q + 1 - 1 = q := by omega
    have htot : (if (if q + 1 = 1 then 0 else T) = 0
                 then (pages (q + 1)).total else (if q + 1 = 1 then 0 else T)) = T := by
      by_cases h1 : q + 1 = 1
      · rw [if_pos h1, if_pos rfl, h1, hT]
      · have hTpos : 0 < T := by
          have hl := hmin 1 (le_refl 1) (by omega)
          omega
        rw [if_neg h1, if_neg (by omega)]
    have hpar : cumLen pages (q + 1 - 1) + (pages (q + 1)).crates.length
        = cumLen pages (q + 1) := by
      rw [hq1]
      rfl
    simp only [CratesClient.fetchItems]
    rw [htot, hpar]
    cases d with
    | zero =>
      have hr2 : T ≤ cumLen pages (q + 1) := by
        rw [show q + 1 = K from by omega]
        exact hreach
      rw [if_pos hr2]
      rfl
    | succ e =>
      have hlt : cumLen pages (q + 1) < T := hmin (q + 1) (by omega) (by omega)
      rw [if_neg (by omega)]
      have ihv := ih e (q + 1 + 1) (by omega) (by omega) (by omega)
      rw [Nat.add_sub_cancel] at ihv
      rw [if_neg (by omega)] at ihv
      rw [ihv]
      rfl

/-- The list of `n` consecutive pages starting at `p`, written through
`List.range`. -/
theorem segPages_eq (pages : Nat → Page) :
    ∀ n p, segPages pages p n = (List.range n).map (fun i => pages (p + i)) := by
  intro n
  induction n with
  | zero =>
    intro p
    rfl
  | succ e ih =>
    intro p
    have hfun : ((fun i => pages (p + i)) ∘ Nat.succ) = fun i => pages (p + 1 + i) := by
      funext i
      show pages (p + (i + 1)) = pages (p + 1 + i)
      congr 1
      omega
    rw [List.range_succ_eq_map, List.map_cons, List.map_map, hfun, ← ih (p + 1)]
    rfl

/-- Claim C1: for a sequence of pages whose cumulative `crates` lengths first
reach the first page's `meta.total` on page `K`, the paginated page fetcher
(`CratesClient.crates` / `__fetch_items`, starting at page 1) yields exactly
the `K` page payloads of pages `1..K`, in page order, and then stops. -/
theorem pagination_yields_exactly_K_pages (pages : Nat → Page) (K fuel : Nat)
    (hK : 1 ≤ K)
    (hreach : (pages 1).total ≤ cumLen pages K)
    (hmin : ∀ j, 1 ≤ j → j < K → cumLen pages j < (pages 1).total)
    (hfuel : K ≤ fuel) :
    CratesClient.crates (fun n => Except.ok (pages n)) 1 fuel
      = CratesClient.FetchResult.done ((List.range K).map (fun i => pages (1 + i))) := by
  have h := fetchItems_seg pages ((pages 1).total) K rfl hreach hmin fuel (K - 1) 1
    (le_refl 1) (by omega) (by omega)
  rw [show K - 1 + 1 = K from by omega, segPages_eq] at h
  exact h

/-- Witness for C1: a two-page registry with total `2` and one crate per
page yields exactly pages 1 and 2. -/
theorem pagination_yields_exactly_K_pages_witness :
    CratesClient.crates (fun n => Except.ok (pagesW n)) 1 2
      = CratesClient.FetchResult.done [pagesW 1, pagesW 2] := by
  have h := pagination_yields_exactly_K_pages pagesW 2 2 (by decide) (by decide)
    (fun j h1 h2 => by
      have hj : j = 1 := by omega
      subst hj
      decide)
    (le_refl 2)
  exact h

/-- Claim C4 (amended): if the first page reports `meta.total = 0`, the
pagination loop yields exactly one page and terminates. -/
theorem pagination_total_zero_one_page (pages : Nat → Page) (fuel : Nat)
    (h0 : (pages 1).total = 0) (hfuel : 1 ≤ fuel) :
    CratesClient.crates (fun n => Except.ok (pages n)) 1 fuel
      = CratesClient.FetchResult.done [pages 1] := by
  obtain ⟨f, rfl⟩ : ∃ f, fuel = f + 1 := ⟨fuel - 1, by omega⟩
  show CratesClient.fetchItems _ 1 0 0 (f + 1) = _
  simp [CratesClient.fetchItems, h0]

/-- Witness for the amended C4: an empty registry yields exactly one page. -/
theorem pagination_total_zero_one_page_witness :
    CratesClient.crates (fun n => Except.ok (pagesZ n)) 1 3
      = CratesClient.FetchResult.done [pagesZ 1] :=
  pagination_total_zero_one_page pagesZ 3 rfl (by decide)

/-- Counterexample to C4 as stated: a first page with an empty `crates`
array but `meta.total = 1` does not stop the loop after one page; page 2 is
fetched and yielded as well. -/
theorem pagination_empty_first_page_counterexample :
    CratesClient.crates (fun n => Except.ok (pagesEmptyFirst n)) 1 5
      = CratesClient.FetchResult.done [pagesEmptyFirst 1, pagesEmptyFirst 2] ∧
    CratesClient.FetchResult.done [pagesEmptyFirst 1, pagesEmptyFirst 2]
      ≠ CratesClient.FetchResult.done [pagesEmptyFirst 1] := by
  constructor
  · rfl
  · decide

/-- Unfolding: an entry older than the watermark is skipped entirely. -/
theorem processEntries_cons_skip (client : CratesClientModel) (fd : Int)
    (e : CrateEntry) (rest : List CrateEntry) (hlt : e.updated_at < fd) :
    Crates.processEntries client fd (e :: rest) = Crates.processEntries client fd rest := by
  simp only [Crates.processEntries]
  rw [if_pos hlt]

/-- Unfolding: a failing entry stops processing with its trace and error. -/
theorem processEntries_cons_error (client : CratesClientModel) (fd : Int)
    (e : CrateEntry) (rest : List CrateEntry) (tr : List Request) (err : String)
    (hlt : ¬ e.updated_at < fd)
    (hpc : Crates.processCrate client e.id = (tr, Except.error err)) :
    Crates.processEntries client fd (e :: rest) = (tr, [], some err) := by
  simp only [Crates.processEntries]
  rw [if_neg hlt, hpc]

/-- Unfolding: a successful entry contributes its trace and one record. -/
theorem processEntries_cons_ok (client : CratesClientModel) (fd : Int)
    (e : CrateEntry) (rest : List CrateEntry) (tr : List Request) (r : List (String × Val))
    (hlt : ¬ e.updated_at < fd)
    (hpc : Crates.processCrate client e.id = (tr, Except.ok r)) :
    Crates.processEntries client fd (e :: rest)
      = (tr ++ (Crates.processEntries client fd rest).1,
         r :: (Crates.processEntries client fd rest).2.1,
         (Crates.processEntries client fd rest).2.2) := by
  simp only [Crates.processEntries]
  rw [if_neg hlt, hpc]

/-- Unfolding: a page whose processing raised stops the aggregation. -/
theorem fetchCratesPages_cons_err (client : CratesClientModel) (fd : Int)
    (p : Page) (ps : List Page) (tr : List Request)
    (rs : List (List (String × Val))) (err : String)
    (h : Crates.processEntries client fd p.crates = (tr, rs, some err)) :
    Crates.fetchCratesPages client fd (p :: ps) = (tr, rs, some err) := by
  simp only [Crates.fetchCratesPages]
  rw [h]

/-- Unfolding: a cleanly processed page is followed by the remaining pages. -/
theorem fetchCratesPages_cons_ok (client : CratesClientModel) (fd : Int)
    (p : Page) (ps : List Page) (tr : List Request)
    (rs : List (List (String × Val)))
    (h : Crates.processEntries client fd p.crates = (tr, rs, none)) :
    Crates.fetchCratesPages client fd (p :: ps)
      = (tr ++ (Crates.fetchCratesPages client fd ps).1,
         rs ++ (Crates.fetchCratesPages client fd ps).2.1,
         (Crates.fetchCratesPages client fd ps).2.2) := by
  simp only [Crates.fetchCratesPages]
  rw [h]

/-- A successful `processCrate` issues exactly the five requests of
`crateRequests` and returns a record of `compositeRecord` shape. -/
theorem processCrate_ok_shape (client : CratesClientModel) (cid : String)
    (tr : List Request) (r : List (String × Val))
    (h : Crates.processCrate client cid = (tr, Except.ok r)) :
    tr = crateRequests cid ∧
    ∃ crate0 t u dl v, r = compositeRecord crate0 t u dl v := by
  unfold Crates.processCrate at h
  split at h
  · simp at h
  · split at h
    · simp at h
    · split at h
      · split at h
        · simp at h
        · split at h
          · simp at h
          · split at h
            · simp at h
            · rw [Prod.mk.injEq] at h
              obtain ⟨h1, h2⟩ := h
              injection h2 with h2
              exact ⟨h1.symm, _, _, _, _, _, h2.symm⟩
      · simp at h

/-- Every record a successful `processCrate` returns carries the four
sub-resource keys. -/
theorem processCrate_ok_keys (client : CratesClientModel) (cid : String)
    (tr : List Request) (r : List (String × Val))
    (h : Crates.processCrate client cid = (tr, Except.ok r)) :
    hasKey r "owner_team_data" = true ∧ hasKey r "owner_user_data" = true ∧
    hasKey r "version_downloads_data" = true ∧ hasKey r "versions_data" = true := by
  obtain ⟨-, crate0, t, u, dl, v, rfl⟩ := processCrate_ok_shape client cid tr r h
  unfold compositeRecord hasKey
  refine ⟨?_, ?_, ?_, ?_⟩
  · rw [getKey_setKey_ne _ "versions_data" "owner_team_data" _ (by decide),
      getKey_setKey_ne _ "version_downloads_data" "owner_team_data" _ (by decide),
      getKey_setKey_ne _ "owner_user_data" "owner_team_data" _ (by decide),
      getKey_setKey_self]
    rfl
  · rw [getKey_setKey_ne _ "versions_data" "owner_user_data" _ (by decide),
      getKey_setKey_ne _ "version_downloads_data" "owner_user_data" _ (by decide),
      getKey_setKey_self]
    rfl
  · rw [getKey_setKey_ne _ "versions_data" "version_downloads_data" _ (by decide),
      getKey_setKey_self]
    rfl
  · rw [getKey_setKey_self]
    rfl

/-- Every record yielded while processing a page's entries originates from a
successfully processed entry that passed the watermark filter. -/
theorem processEntries_record_origin (client : CratesClientModel) (fd : Int) :
    ∀ (entries : List CrateEntry) (r : List (String × Val)),
      r ∈ (Crates.processEntries client fd entries).2.1 →
      ∃ e, e ∈ entries ∧ fd ≤ e.updated_at ∧
        ∃ tr, Crates.processCrate client e.id = (tr, Except.ok r) := by
  intro entries
  induction entries with
  | nil =>
    intro r hr
    simp [Crates.processEntries] at hr
  | cons e rest ih =>
    intro r hr
    by_cases hlt : e.updated_at < fd
    · rw [processEntries_cons_skip client fd e rest hlt] at hr
      obtain ⟨e2, he2, hge2, tr2, hok⟩ := ih r hr
      exact ⟨e2, List.mem_cons_of_mem _ he2, hge2, tr2, hok⟩
    · rcases hpc : Crates.processCrate client e.id with ⟨tr, res⟩
      cases res with
      | error err =>
        rw [processEntries_cons_error client fd e rest tr err hlt hpc] at hr
        simp at hr
      | ok r0 =>
        rw [processEntries_cons_ok client fd e rest tr r0 hlt hpc] at hr
        have hr2 : r ∈ r0 :: (Crates.processEntries client fd rest).2.1 := hr
        rcases List.mem_cons.mp hr2 with h1 | h2
        · subst h1
          exact ⟨e, List.mem_cons_self _ _, not_lt.mp hlt, tr, hpc⟩
        · obtain ⟨e2, he2, hge2, tr2, hok⟩ := ih r h2
          exact ⟨e2, List.mem_cons_of_mem _ he2, hge2, tr2, hok⟩

/-- Every record yielded by the aggregation over a list of pages originates
from a successfully processed entry of one of the pages that passed the
watermark filter. -/
theorem fetchCratesPages_record_origin (client : CratesClientModel) (fd : Int) :
    ∀ (pages : List Page) (r : List (String × Val)),
      r ∈ (Crates.fetchCratesPages client fd pages).2.1 →
      ∃ p, p ∈ pages ∧ ∃ e, e ∈ p.crates ∧ fd ≤ e.updated_at ∧
        ∃ tr, Crates.processCrate client e.id = (tr, Except.ok r) := by
  intro pages
  induction pages with
  | nil =>
    intro r hr
    simp [Crates.fetchCratesPages] at hr
  | cons p ps ih =>
    intro r hr
    rcases hpe : Crates.processEntries client fd p.crates with ⟨tr, rs, st⟩
    cases st with
    | some err =>
      rw [fetchCratesPages_cons_err client fd p ps tr rs err hpe] at hr
      have hr2 : r ∈ rs := hr
      obtain ⟨e, he, hge, tr2, hok⟩ := processEntries_record_origin client fd p.crates r
        (by rw [hpe]; exact hr2)
      exact ⟨p, List.mem_cons_self _ _, e, he, hge, tr2, hok⟩
    | none =>
      rw [fetchCratesPages_cons_ok client fd p ps tr rs hpe] at hr
      have hr2 : r ∈ rs ++ (Crates.fetchCratesPages client fd ps).2.1 := hr
      rcases List.mem_append.mp hr2 with h1 | h2
      · obtain ⟨e, he, hge, tr2, hok⟩ := processEntries_record_origin client fd p.crates r
          (by rw [hpe]; exact h1)
        exact ⟨p, List.mem_cons_self _ _, e, he, hge, tr2, hok⟩
      · obtain ⟨p2, hp2, rest2⟩ := ih r h2
        exact ⟨p2, List.mem_cons_of_mem _ hp2, rest2⟩

/-- When every entry passing the filter processes successfully, the records
of one page are exactly the passing entries' records, in listing order, and
no error is raised. -/
theorem processEntries_all_ok (client : CratesClientModel) (fd : Int) :
    ∀ entries : List CrateEntry,
      (∀ e, e ∈ entries → fd ≤ e.updated_at → (entryRecord client e).isSome = true) →
      (Crates.processEntries client fd entries).2.1
        = entries.filterMap (fun e => if e.updated_at < fd then none else entryRecord client e) ∧
      (Crates.processEntries client fd entries).2.2 = none := by
  intro entries
  induction entries with
  | nil =>
    intro hok
    exact ⟨rfl, rfl⟩
  | cons e rest ih =>
    intro hok
    have hrest := ih (fun e2 he2 => hok e2 (List.mem_cons_of_mem _ he2))
    by_cases hlt : e.updated_at < fd
    · rw [processEntries_cons_skip client fd e rest hlt]
      constructor
      · rw [hrest.1]
        simp [List.filterMap_cons, hlt]
      · exact hrest.2
    · have hge : fd ≤ e.updated_at := not_lt.mp hlt
      have hsome := hok e (List.mem_cons_self _ _) hge
      rcases hpc : Crates.processCrate client e.id with ⟨tr, res⟩
      cases res with
      | error err =>
        exfalso
        have hent : entryRecord client e = none := by
          unfold entryRecord
          rw [hpc]
        rw [hent] at hsome
        simp at hsome
      | ok r0 =>
        have hent : entryRecord client e = some r0 := by
          unfold entryRecord
          rw [hpc]
        rw [processEntries_cons_ok client fd e rest tr r0 hlt hpc]
        constructor
        · show r0 :: (Crates.processEntries client fd rest).2.1 = _
          rw [hrest.1]
          simp [List.filterMap_cons, hlt, hent]
        · exact hrest.2

/-- When every passing entry of every page processes successfully, the
aggregated record sequence is the page-by-page concatenation of each page's
passing entries' records, and no error is raised. -/
theorem fetchCratesPages_all_ok (client : CratesClientModel) (fd : Int) :
    ∀ pages : List Page,
      (∀ p, p ∈ pages → ∀ e, e ∈ p.crates → fd ≤ e.updated_at →
        (entryRecord client e).isSome = true) →
      (Crates.fetchCratesPages client fd pages).2.1
        = (pages.map (fun p => p.crates.filterMap
            (fun e => if e.updated_at < fd then none else entryRecord client e))).flatten ∧
      (Crates.fetchCratesPages client fd pages).2.2 = none := by
  intro pages
  induction pages with
  | nil =>
    intro hok
    exact ⟨rfl, rfl⟩
  | cons p ps ih =>
    intro hok
    have hpage := processEntries_all_ok client fd p.crates
      (fun e he => hok p (List.mem_cons_self _ _) e he)
    have hrest := ih (fun p2 hp2 => hok p2 (List.mem_cons_of_mem _ hp2))
    rcases hpe : Crates.processEntries client fd p.crates with ⟨tr, rs, st⟩
    have hst : st = none := by
      have h2 := hpage.2
      rw [hpe] at h2
      exact h2
    subst hst
    have hrs : rs = p.crates.filterMap
        (fun e => if e.updated_at < fd then none else entryRecord client e) := by
      have h1 := hpage.1
      rw [hpe] at h1
      exact h1
    rw [fetchCratesPages_cons_ok client fd p ps tr rs hpe]
    constructor
    · show rs ++ (Crates.fetchCratesPages client fd ps).2.1 = _
      rw [hrs, hrest.1, List.map_cons, List.flatten_cons]
    · show (Crates.fetchCratesPages client fd ps).2.2 = none
      exact hrest.2

/-- Claim C2: an entry whose `updated_at` is strictly before the watermark
is skipped with no sub-fetches and no record; an entry at or after the
watermark whose five fetches succeed issues exactly the detail request plus
the four sub-resource requests and yields exactly one composite record
carrying the four extra keys. -/
theorem watermark_filter (client : CratesClientModel) (fd : Int)
    (e : CrateEntry) (rest : List CrateEntry) :
    (e.updated_at < fd →
      Crates.processEntries client fd (e :: rest) = Crates.processEntries client fd rest) ∧
    (fd ≤ e.updated_at →
      ∀ resp crate0 t u dl v,
        client.crate e.id = Except.ok resp →
        getKey resp "crate" = some (Val.obj crate0) →
        client.crateAttribute e.id "owner_team" = Except.ok t →
        client.crateAttribute e.id "owner_user" = Except.ok u →
        client.crateAttribute e.id "downloads" = Except.ok dl →
        client.crateAttribute e.id "versions" = Except.ok v →
        Crates.processCrate client e.id
          = (crateRequests e.id, Except.ok (compositeRecord crate0 t u dl v)) ∧
        ((crateRequests e.id).filter Request.isAttr).length = 4 ∧
        Crates.processEntries client fd (e :: rest)
          = (crateRequests e.id ++ (Crates.processEntries client fd rest).1,
             compositeRecord crate0 t u dl v :: (Crates.processEntries client fd rest).2.1,
             (Crates.processEntries client fd rest).2.2) ∧
        hasKey (compositeRecord crate0 t u dl v) "owner_team_data" = true ∧
        hasKey (compositeRecord crate0 t u dl v) "owner_user_data" = true ∧
        hasKey (compositeRecord crate0 t u dl v) "version_downloads_data" = true ∧
        hasKey (compositeRecord crate0 t u dl v) "versions_data" = true) := by
  constructor
  · intro hlt
    exact processEntries_cons_skip client fd e rest hlt
  · intro hge resp crate0 t u dl v h1 h2 h3 h4 h5 h6
    have hpc : Crates.processCrate client e.id
        = (crateRequests e.id, Except.ok (compositeRecord crate0 t u dl v)) := by
      simp only [Crates.processCrate, Crates.fetchCrateData, h1, h2, h3, h4, h5, h6]
    have hkeys := processCrate_ok_keys client e.id _ _ hpc
    exact ⟨hpc, rfl, processEntries_cons_ok client fd e rest _ _ (not_lt.mpr hge) hpc,
      hkeys.1, hkeys.2.1, hkeys.2.2.1, hkeys.2.2.2⟩

/-- Witness for C2: a passing entry yields exactly one record after four
attribute sub-fetches; an entry below the watermark is skipped entirely. -/
theorem watermark_filter_witness :
    ((Crates.processEntries clientOK 5 (⟨"w", 7⟩ :: [])).2.1).length = 1 ∧
    ((crateRequests "w").filter Request.isAttr).length = 4 ∧
    Crates.processEntries clientOK 5 (⟨"w", 3⟩ :: []) = Crates.processEntries clientOK 5 [] := by
  have h := watermark_filter clientOK 5 ⟨"w", 7⟩ []
  have h2 := h.2 (by decide)
    [("crate", Val.obj [("id", Val.str "w"), ("updated_at", Val.num 0)])]
    [("id", Val.str "w"), ("updated_at", Val.num 0)]
    (Val.num 1) (Val.num 1) (Val.num 1) (Val.num 1) rfl rfl rfl rfl rfl rfl
  have h3 := watermark_filter clientOK 5 ⟨"w", 3⟩ []
  refine ⟨?_, h2.2.1, h3.1 (by decide)⟩
  rw [h2.2.2.1]
  rfl

/-- Claim C3: if any of the five fetches for a crate raises, the aggregation
propagates that same error, yields no record for that crate, and in general
no partial composite record (one missing any of the four keys) is ever
emitted. -/
theorem subfetch_error_propagation (client : CratesClientModel) (fd : Int)
    (e : CrateEntry) (rest : List CrateEntry) (tr : List Request) (err : String)
    (hge : fd ≤ e.updated_at)
    (herr : Crates.processCrate client e.id = (tr, Except.error err)) :
    Crates.processEntries client fd (e :: rest) = (tr, [], some err) ∧
    ∀ pages r, r ∈ (Crates.fetchCratesPages client fd pages).2.1 →
      hasKey r "owner_team_data" = true ∧ hasKey r "owner_user_data" = true ∧
      hasKey r "version_downloads_data" = true ∧ hasKey r "versions_data" = true := by
  constructor
  · exact processEntries_cons_error client fd e rest tr err (not_lt.mpr hge) herr
  · intro pages r hr
    obtain ⟨p, hp, e2, he2, hge2, tr2, hok⟩ := fetchCratesPages_record_origin client fd pages r hr
    exact processCrate_ok_keys client e2.id tr2 r hok

/-- Witness for C3: with a client whose `versions` sub-fetch raises, the
aggregation stops with that error and yields no record. -/
theorem subfetch_error_propagation_witness :
    Crates.processEntries clientErr 0 (⟨"x", 3⟩ :: [])
      = (crateRequests "x", [], some "HTTPError 500") :=
  (subfetch_error_propagation clientErr 0 ⟨"x", 3⟩ [] (crateRequests "x") "HTTPError 500"
    (by decide) rfl).1

/-- Claim C5 (amended): every emitted composite record originates from a
listing entry whose (listing) `updated_at` is at or after the watermark; the
record's own `updated_at` field comes from the separate detail payload and
is not re-checked against the watermark. -/
theorem emitted_record_from_passing_entry (client : CratesClientModel) (fd : Int)
    (pages : List Page) (r : List (String × Val))
    (hr : r ∈ (Crates.fetchCratesPages client fd pages).2.1) :
    ∃ p, p ∈ pages ∧ ∃ e, e ∈ p.crates ∧ fd ≤ e.updated_at ∧
      ∃ tr, Crates.processCrate client e.id = (tr, Except.ok r) :=
  fetchCratesPages_record_origin client fd pages r hr

/-- Witness for the amended C5. -/
theorem emitted_record_from_passing_entry_witness :
    ∃ p, p ∈ [pageC5] ∧ ∃ e, e ∈ p.crates ∧ (5:Int) ≤ e.updated_at ∧
      ∃ tr, Crates.processCrate clientOK e.id = (tr, Except.ok recC5) :=
  emitted_record_from_passing_entry clientOK 5 [pageC5] recC5 (List.Mem.head _)

/-- Counterexample to C5 as stated: with a watermark of 5, a listing entry
updated at time 10 passes the filter, but the detail payload the registry
returns for it carries `updated_at = 0`, so the emitted record's own
`updated_at` is strictly before the watermark. -/
theorem record_updated_at_counterexample :
    (Crates.fetchCratesPages clientOK 5 [pageC5]).2.1 = [recC5] ∧
    recordUpdatedAt recC5 = some 0 ∧ ¬ ((5:Int) ≤ 0) :=
  ⟨rfl, rfl, by decide⟩

/-- Claim C9: when every passing entry processes successfully, the emitted
records are, page by page in page order, the records of each page's entries
in listing order with the filtered entries removed. -/
theorem listing_order_preserved (client : CratesClientModel) (fd : Int) (pages : List Page)
    (hok : ∀ p, p ∈ pages → ∀ e, e ∈ p.crates → fd ≤ e.updated_at →
      (entryRecord client e).isSome = true) :
    (Crates.fetchCratesPages client fd pages).2.1
      = (pages.map (fun p => p.crates.filterMap
          (fun e => if e.updated_at < fd then none else entryRecord client e))).flatten :=
  (fetchCratesPages_all_ok client fd pages hok).1

/-- Witness for C9: two pages with entries a (passes), b (filtered), c
(passes) yield the records of a then c. -/
theorem listing_order_preserved_witness :
    (Crates.fetchCratesPages clientOK 5 pages9).2.1 = [recOK "a", recOK "c"] := by
  have h := listing_order_preserved clientOK 5 pages9 (by decide)
  rw [h]
  rfl

/-- Claim C6: the category of an item is `summary` exactly when the item
carries a `num_downloads` key, and `crates` exactly otherwise. -/
theorem metadata_category_by_num_downloads (item : List (String × Val)) :
    (Crates.metadata_category item = CATEGORY_SUMMARY ↔ ∃ v, ("num_downloads", v) ∈ item) ∧
    (Crates.metadata_category item = CATEGORY_CRATES ↔ ¬ ∃ v, ("num_downloads", v) ∈ item) := by
  unfold Crates.metadata_category
  by_cases h : hasKey item "num_downloads" = true
  · rw [if_pos h]
    have hm := (hasKey_iff_mem item "num_downloads").mp h
    exact ⟨⟨fun _ => hm, fun _ => rfl⟩,
      ⟨fun hc => absurd hc (by decide), fun hn => absurd hm hn⟩⟩
  · rw [if_neg h]
    have hnm : ¬ ∃ v, ("num_downloads", v) ∈ item := by
      intro hex
      exact h ((hasKey_iff_mem item "num_downloads").mpr hex)
    exact ⟨⟨fun hc => absurd hc (by decide), fun hex => absurd hex hnm⟩,
      ⟨fun _ => hnm, fun _ => rfl⟩⟩

/-- Witness for C6 at concrete items of both categories. -/
theorem metadata_category_by_num_downloads_witness :
    Crates.metadata_category itemSummaryW = CATEGORY_SUMMARY ∧
    Crates.metadata_category itemCrateW = CATEGORY_CRATES := by
  refine ⟨(metadata_category_by_num_downloads itemSummaryW).1.mpr ⟨Val.num 5, ?_⟩,
    (metadata_category_by_num_downloads itemCrateW).2.mpr ?_⟩
  · exact List.mem_cons_self _ _
  · rintro ⟨v, hv⟩
    rcases List.mem_cons.mp hv with h1 | h2
    · injection h1 with hk hv2
      exact absurd hk (by decide)
    · rcases List.mem_cons.mp h2 with h3 | h4
      · injection h3 with hk hv2
        exact absurd hk (by decide)
      · simp at h4

/-- Claim C7: for crate items the identifier is the stringified `id` field
and the update timestamp is parsed from `updated_at`; for summary items both
are derived from `fetched_on`, the identifier being the stringified numeric
UTC timestamp and the update timestamp the numeric value itself. -/
theorem metadata_id_updated_on_fields (parse : String → Int) (item : List (String × Val)) :
    (hasKey item "num_downloads" = false →
      (∀ v, getKey item "id" = some v →
        Crates.metadata_id parse item = some (Crates.valStr v)) ∧
      (∀ s, getKey item "updated_at" = some (Val.str s) →
        Crates.metadata_updated_on parse item = some (parse s))) ∧
    (hasKey item "num_downloads" = true →
      (∀ s, getKey item "fetched_on" = some (Val.str s) →
        Crates.metadata_id parse item = some (toString (parse s)) ∧
        Crates.metadata_updated_on parse item = some (parse s))) := by
  constructor
  · intro hf
    have hcat : Crates.metadata_category item = CATEGORY_CRATES := by
      unfold Crates.metadata_category
      rw [if_neg (by simp [hf])]
    constructor
    · intro v hv
      unfold Crates.metadata_id
      rw [if_pos hcat, hv]
      rfl
    · intro s hs
      unfold Crates.metadata_updated_on
      rw [if_pos hcat, hs]
  · intro ht s hs
    have hcat : Crates.metadata_category item = CATEGORY_SUMMARY := by
      unfold Crates.metadata_category
      rw [if_pos ht]
    constructor
    · unfold Crates.metadata_id
      rw [if_neg (by rw [hcat]; decide), hs]
    · unfold Crates.metadata_updated_on
      rw [if_neg (by rw [hcat]; decide), hs]

/-- Witness for C7 at concrete crate and summary items (both timestamp
strings have length 25, which the stand-in parser reports). -/
theorem metadata_id_updated_on_fields_witness :
    Crates.metadata_id parseW itemCrateW = some "42" ∧
    Crates.metadata_updated_on parseW itemCrateW = some 25 ∧
    Crates.metadata_id parseW itemSummaryW = some "25" ∧
    Crates.metadata_updated_on parseW itemSummaryW = some 25 := by
  have h := metadata_id_updated_on_fields parseW itemCrateW
  have h2 := metadata_id_updated_on_fields parseW itemSummaryW
  have ha := (h.1 rfl).1 (Val.num 42) rfl
  have hb := (h.1 rfl).2 "2021-06-01T00:00:00+00:00" rfl
  have hc := h2.2 rfl "2020-01-01T00:00:00+00:00" rfl
  exact ⟨ha, hb, hc.1, hc.2⟩

/-- Claim C8: the summary fetcher yields exactly one record, equal to the
decoded payload with `fetched_on` injected, and two invocations against the
same payload agree on every key other than `fetched_on`. -/
theorem summary_single_record (p : List (String × Val)) (now1 now2 : String) :
    Crates.fetchSummary (Except.ok p) now1
      = Except.ok [setKey p "fetched_on" (Val.str now1)] ∧
    (∀ l, Crates.fetchSummary (Except.ok p) now1 = Except.ok l → l.length = 1) ∧
    (∀ k, k ≠ "fetched_on" →
      getKey (setKey p "fetched_on" (Val.str now1)) k
        = getKey (setKey p "fetched_on" (Val.str now2)) k) := by
  refine ⟨rfl, ?_, ?_⟩
  · intro l hl
    simp only [Crates.fetchSummary] at hl
    injection hl with h
    rw [← h]
    rfl
  · intro k hk
    rw [getKey_setKey_ne _ "fetched_on" k _ (Ne.symm hk),
      getKey_setKey_ne _ "fetched_on" k _ (Ne.symm hk)]

/-- Witness for C8 at a concrete summary payload and two capture times. -/
theorem summary_single_record_witness :
    Crates.fetchSummary (Except.ok [("total_downloads", Val.num 7)]) "t1"
      = Except.ok [setKey [("total_downloads", Val.num 7)] "fetched_on" (Val.str "t1")] ∧
    getKey (setKey [("total_downloads", Val.num 7)] "fetched_on" (Val.str "t1")) "total_downloads"
      = getKey (setKey [("total_downloads", Val.num 7)] "fetched_on" (Val.str "t2")) "total_downloads" := by
  have h := summary_single_record [("total_downloads", Val.num 7)] "t1" "t2"
  exact ⟨h.1, h.2.2 "total_downloads" (by decide)⟩

/-- Claim C10: fetching with a falsy `from_date` behaves identically to
fetching with the default datetime: the falsy value is replaced by
`DEFAULT_DATETIME` before UTC normalization. -/
theorem fetch_falsy_from_date_default (client : CratesClientModel) (now : String)
    (fuel : Nat) (category : String) :
    Crates.fetch client now fuel category none
      = Crates.fetch client now fuel category (some DEFAULT_DATETIME) := rfl
